import Mathlib

/-!
Shallow embedding of the rpq Redis-backed priority queue (src/index.js).

The Redis keyspace used by one `PriorityQueue` instance is modelled by `RState`:
* `rpq:{q}:priorities` (sorted set)  ↦ `zpriorities : List (String × Int)`
  (association list, member → score, in insertion order; `ZRANGE` sorts it),
* `rpq:{q}:queue:{p}` (list)         ↦ `queues : String → List String`,
* `rpq:{q}:queue_n` (integer key)    ↦ `queueN : Option Int` (`none` = key absent),
* `rpq:{q}:queuedummy` (list of '1') ↦ `dummy : Nat` (only its length matters),
* `rpq:{q}:reserves` (set)           ↦ `reserves : List String` (member ids,
  insertion ordered; the `rpq:{q}:reserve:` prefix of the stored keys is a
  fixed bijection so ids stand for keys),
* `rpq:{q}:reserve:{id}` (list)      ↦ `slots : String → List String`.

The JS object additionally caches the priority mapping in `this._priorities`,
modelled by `PQ.priorities`.  Callbacks are modelled by returning the value the
callback receives; `Res` distinguishes the error and success arguments.
-/

namespace Rpq

/-- Result delivered to a node-style callback: either an error or a value. -/
inductive Res (α : Type) where
  | ok (v : α) : Res α
  | err (e : String) : Res α
deriving DecidableEq, Repr

/-- Result of `acknowledge`: the JS method returns without ever invoking the
callback when the reserve id is falsy (`silent`), otherwise the callback gets
the popped item (or `none`). -/
inductive AckRes where
  | silent : AckRes
  | called (d : Option String) : AckRes
deriving DecidableEq, Repr

/-- Redis state of one queue's namespace (see module docstring). -/
structure RState where
  zpriorities : List (String × Int)
  queues : String → List String
  queueN : Option Int
  dummy : Nat
  reserves : List String
  slots : String → List String

/-- A `PriorityQueue` object: the locally cached `this._priorities` mapping
plus the Redis state it talks to. -/
structure PQ where
  priorities : List (String × Int)
  store : RState

/-- Lookup in an association list (models JS object property read, where the
cached `_priorities` values are always numbers). -/
def alookup : List (String × Int) → String → Option Int
  | [], _ => none
  | (a, v) :: t, k => if a = k then some v else alookup t k

/-- Pointwise update of a key-indexed family of Redis lists. -/
def fupd (f : String → List String) (k : String) (v : List String) : String → List String :=
  fun x => if x = k then v else f x

/-- Redis `SADD` on an insertion-ordered member list. -/
def sadd (s : List String) (x : String) : List String :=
  if x ∈ s then s else s ++ [x]

/-- Redis `SREM`. -/
def srem (s : List String) (x : String) : List String :=
  s.filter (fun y => y ≠ x)

/-- Redis sorted-set order: ascending score, ties broken lexicographically by
member (this is how `ZRANGE` orders equal scores). -/
def zle (a b : String × Int) : Prop :=
  a.2 < b.2 ∨ (a.2 = b.2 ∧ a.1 ≤ b.1)

instance : DecidableRel zle := fun a b => by
  unfold zle; infer_instance

instance : IsTotal (String × Int) zle where
  total a b := by
    rcases lt_trichotomy a.2 b.2 with h | h | h
    · exact Or.inl (Or.inl h)
    · rcases le_total a.1 b.1 with h1 | h1
      · exact Or.inl (Or.inr ⟨h, h1⟩)
      · exact Or.inr (Or.inr ⟨h.symm, h1⟩)
    · exact Or.inr (Or.inl h)

instance : IsTrans (String × Int) zle where
  trans a b c hab hbc := by
    rcases hab with h1 | ⟨h1, h1'⟩
    · rcases hbc with h2 | ⟨h2, _⟩
      · exact Or.inl (h1.trans h2)
      · exact Or.inl (h2 ▸ h1)
    · rcases hbc with h2 | ⟨h2, h2'⟩
      · exact Or.inl (h1 ▸ h2)
      · exact Or.inr ⟨h1.trans h2, h1'.trans h2'⟩

/-- Redis `ZRANGE key 0 -1`: all entries in sorted-set order. -/
def zrangeEntries (zs : List (String × Int)) : List (String × Int) :=
  zs.insertionSort zle

/-- Members of the sorted set in `ZRANGE` order; `_priorityKeys` maps these to
queue keys. -/
def zrangeLabels (zs : List (String × Int)) : List String :=
  (zrangeEntries zs).map Prod.fst

/-- Redis `ZSCORE` existence test. -/
def zscoreMem (zs : List (String × Int)) (p : String) : Bool :=
  zs.any (fun e => e.1 = p)

/-- Redis `ZADD` of a single member: update the score in place if the member
exists, otherwise append. -/
def upsert (zs : List (String × Int)) (k : String) (v : Int) : List (String × Int) :=
  if zs.any (fun e => e.1 = k) then
    zs.map (fun e => if e.1 = k then (k, v) else e)
  else zs ++ [(k, v)]

/-- Redis `ZADD` of many members. -/
def zadd (zs : List (String × Int)) (entries : List (String × Int)) : List (String × Int) :=
  entries.foldl (fun acc e => upsert acc e.1 e.2) zs

/-- Collect the characters after the last `':'`. -/
def lastSegAux (cur : List Char) : List Char → List Char
  | [] => cur
  | c :: t => if c = ':' then lastSegAux [] t else lastSegAux (cur ++ [c]) t

/-- Lua `string.match(KEYS[4], ":([^:]+)$")` applied to the queue key
`{prefix}:{name}:queue:{p}`.  Because the key prefix ends in `':'`, the match
result depends only on `p`: it is the (nonempty) run of characters after the
last colon, or no match when `p` is empty or ends in `':'`. -/
def luaLastSeg (p : String) : Option String :=
  let seg := lastSegAux [] p.data
  if seg.isEmpty then none else some (String.mk seg)

/-- JS truthiness of an optional reserve-id string: `null`/`undefined` and the
empty string are falsy. -/
def truthy : Option String → Option String
  | some r => if r = "" then none else some r
  | none => none

/-- Lua script `scripts.enqueue`: validate the priority against the sorted
set, `INCR` the counter to `n`, pad the dummy list up to length `n` (the loop
`for i = 1, n - dn` appends `max(n - dn, 0)` tokens), then `RPUSH` the item,
returning the new queue length. -/
def scriptEnqueue (st : RState) (priority data : String) : RState × Res Nat :=
  match luaLastSeg priority with
  | none => (st, Res.err "lua error")
  | some p =>
    if zscoreMem st.zpriorities p then
      ({ st with queueN := some (st.queueN.getD 0 + 1),
                 dummy := st.dummy + ((st.queueN.getD 0 + 1) - (st.dummy : Int)).toNat,
                 queues := fupd st.queues priority (st.queues priority ++ [data]) },
       Res.ok (st.queues priority ++ [data]).length)
    else (st, Res.err "Priority not found")

/-- JS `PriorityQueue.enqueue` with an explicit priority label: the callback
gets `'priority not found'` when the label is missing from the local cache
(before any Redis call); otherwise the enqueue script runs. -/
def enqueue (pq : PQ) (data priority : String) : PQ × Res Nat :=
  match alookup pq.priorities priority with
  | none => (pq, Res.err "priority not found")
  | some _ =>
    ({ pq with store := (scriptEnqueue pq.store priority data).1 },
     (scriptEnqueue pq.store priority data).2)

/-- Lua loop shared by `scripts.peek` and `scripts.dequeue`: the first key
whose list is non-empty, together with its head. -/
def firstQ (qs : String → List String) : List String → Option (String × String)
  | [] => none
  | p :: ps =>
    match (qs p).head? with
    | some d => some (p, d)
    | none => firstQ qs ps

/-- JS `_priorityKeys`: `ZRANGE` the priorities and keep those in the
requested subset (all of them when no subset is given), preserving rank
order. -/
def priorityKeys (zs : List (String × Int)) (filter : Option (List String)) : List String :=
  (zrangeLabels zs).filter (fun p =>
    match filter with
    | none => true
    | some ps => decide (p ∈ ps))

/-- Lua script `scripts.dequeue`: `LPOP` the priority queues in rank order;
on the first hit `DECR` the counter and, when a reserve key was passed
(`ARGV[1] == 4`), `SADD` the reserve key and `RPUSH` the item onto it. -/
def scriptDequeue (st : RState) (labels : List String) (reserve : Option String) :
    RState × Option String :=
  match firstQ st.queues labels with
  | none => (st, none)
  | some (p, d) =>
    match reserve with
    | some r =>
      ({ st with queues := fupd st.queues p (st.queues p).tail,
                 queueN := some (st.queueN.getD 0 - 1),
                 reserves := sadd st.reserves r,
                 slots := fupd st.slots r (st.slots r ++ [d]) }, some d)
    | none =>
      ({ st with queues := fupd st.queues p (st.queues p).tail,
                 queueN := some (st.queueN.getD 0 - 1) }, some d)

/-- JS `dequeue`'s `run()`: `BLPOP` one token from the dummy list (an empty
pool models the timeout, returning an empty non-error result), then fetch the
priority keys (an empty key list returns the empty result with the token
already consumed) and run the dequeue script. -/
def dequeueRun (pq : PQ) (reserve : Option String) : PQ × Res (Option String) :=
  if pq.store.dummy = 0 then (pq, Res.ok none)
  else if (priorityKeys pq.store.zpriorities none).isEmpty then
    ({ pq with store := { pq.store with dummy := pq.store.dummy - 1 } }, Res.ok none)
  else
    ({ pq with store := (scriptDequeue { pq.store with dummy := pq.store.dummy - 1 }
        (priorityKeys pq.store.zpriorities none) reserve).1 },
     Res.ok (scriptDequeue { pq.store with dummy := pq.store.dummy - 1 }
        (priorityKeys pq.store.zpriorities none) reserve).2)

/-- JS `PriorityQueue.dequeue`: with a truthy reserve id, first peek that
consumer's reservation slot (`scripts.peek` on the reserve key) and return its
front unchanged if non-empty; otherwise (or with no/falsy reserve id) fall
through to `run()`. -/
def dequeue (pq : PQ) (reserve : Option String) : PQ × Res (Option String) :=
  match truthy reserve with
  | some r =>
    match (pq.store.slots r).head? with
    | some d => (pq, Res.ok (some d))
    | none => dequeueRun pq (some r)
  | none => dequeueRun pq none

/-- JS `count`: with no priorities argument (or an empty array) it `GET`s the
counter key — `parseInt(null)` on an absent key yields `NaN`, modelled as
`none`; with a non-empty list it sums `LLEN` over the matching priority
queues. -/
def count (pq : PQ) (filter : Option (List String)) : Option Int :=
  match filter with
  | some ps =>
    if ps.isEmpty then pq.store.queueN
    else some (((priorityKeys pq.store.zpriorities (some ps)).map
      (fun p => ((pq.store.queues p).length : Int))).sum)
  | none => pq.store.queueN

/-- JS `peek`: read-only; first item over the requested priorities in rank
order, empty result when the key list is empty. -/
def peek (pq : PQ) (filter : Option (List String)) : Option String :=
  (firstQ pq.store.queues (priorityKeys pq.store.zpriorities
    (match filter with
     | some ps => if ps.isEmpty then none else some ps
     | none => none))).map (fun x => x.2)

/-- Lua script `scripts.handover`: `LPOP` the `from` slot; if an item came
out, `SREM` `from` when its slot is now empty, then `RPUSH` the item onto the
`to` slot and `SADD` `to`; an empty `from` slot returns nil and mutates
nothing. -/
def handover (pq : PQ) (f t : String) : PQ × Option String :=
  match (pq.store.slots f).head? with
  | none => (pq, none)
  | some d =>
    ({ pq with store := { pq.store with
        slots := fupd (fupd pq.store.slots f (pq.store.slots f).tail) t
          (fupd pq.store.slots f (pq.store.slots f).tail t ++ [d]),
        reserves := sadd (if (fupd pq.store.slots f (pq.store.slots f).tail f).isEmpty
          then srem pq.store.reserves f else pq.store.reserves) t } },
     some d)

/-- Lua script `scripts.ack`: `LPOP` the slot, `SREM` the id when the slot
became empty, return the popped item (nil when the slot was empty). -/
def ackScript (st : RState) (r : String) : RState × Option String :=
  match (st.slots r).head? with
  | none => (st, none)
  | some d =>
    ({ st with slots := fupd st.slots r (st.slots r).tail,
               reserves := if (fupd st.slots r (st.slots r).tail r).isEmpty
                 then srem st.reserves r else st.reserves }, some d)

/-- JS `acknowledge`: a falsy reserve id returns immediately without invoking
the callback (`AckRes.silent`); otherwise `_ack` runs the ack script. -/
def acknowledge (pq : PQ) (reserve : Option String) : PQ × AckRes :=
  match truthy reserve with
  | none => (pq, AckRes.silent)
  | some r =>
    ({ pq with store := (ackScript pq.store r).1 }, AckRes.called (ackScript pq.store r).2)

/-- JS `peekReserves` together with `scripts.peekReserves`: for every
registered id report the front of its slot (`''` for an empty slot, which is
also `SREM`ed), returning id/item pairs. -/
def peekReserves (pq : PQ) : PQ × List (String × String) :=
  ({ pq with store := { pq.store with
      reserves := pq.store.reserves.filter (fun r => ((pq.store.slots r).head?).isSome) } },
   pq.store.reserves.map (fun r => (r, ((pq.store.slots r).head?).getD "")))

/-- JS `clear`: `DEL` every slot key listed in the reserves set and every
registered priority queue, then `DEL` the reserves set, the dummy list and the
counter key.  The priorities sorted set and the local cache are untouched. -/
def clear (pq : PQ) : PQ :=
  { pq with store :=
    { pq.store with
      queues := fun p => if decide (p ∈ zrangeLabels pq.store.zpriorities) then []
        else pq.store.queues p,
      slots := fun r => if decide (r ∈ pq.store.reserves) then [] else pq.store.slots r,
      reserves := [], dummy := 0, queueN := none } }

/-- JS `setPriorities`: reject (before any write) if some value is not a
number; otherwise replace the local cache with the mapping and `ZADD` all its
entries into the sorted set (an upsert — absent old members are not removed).
The argument's values are `Option Int`, `none` standing for a non-numeric
JS value. -/
def setPriorities (pq : PQ) (m : List (String × Option Int)) : PQ × Option String :=
  if m.all (fun e => e.2.isSome) then
    ({ priorities := m.filterMap (fun e => e.2.map (fun v => (e.1, v))),
       store :=
         { pq.store with
           zpriorities :=
             zadd pq.store.zpriorities (m.filterMap (fun e => e.2.map (fun v => (e.1, v)))) } },
     none)
  else (pq, some "priority value must be number")

/-- Empty Redis namespace (no keys exist). -/
def emptyStore : RState :=
  { zpriorities := [], queues := fun _ => [], queueN := none,
    dummy := 0, reserves := [], slots := fun _ => [] }

/-- A freshly constructed `PriorityQueue` over an empty namespace: the
constructor calls `setPriorities` with the (numeric) initial mapping. -/
def initPQ (m : List (String × Int)) : PQ :=
  { priorities := m, store := { emptyStore with zpriorities := zadd [] m } }

/-- The `DEFAULT_PRIORITIES` mapping, in JS object insertion order. -/
def defaultPriorities : List (String × Int) :=
  [("low", 100), ("normal", 50), ("high", 10), ("critical", 0)]

/-- A fresh queue with the default priorities. -/
def initDefault : PQ := initPQ defaultPriorities

/-- The operations a client can perform against one queue object (peek and
count scripts only read, so `pk` leaves the state unchanged). -/
inductive Op where
  | enq (data priority : String) : Op
  | deq (reserve : Option String) : Op
  | pk (filter : Option (List String)) : Op
  | hov (f t : String) : Op
  | ack (reserve : Option String) : Op
  | clr : Op
  | pkr : Op
deriving DecidableEq, Repr

/-- State transition of one completed operation. -/
def step (pq : PQ) : Op → PQ
  | Op.enq d p => (enqueue pq d p).1
  | Op.deq r => (dequeue pq r).1
  | Op.pk _ => pq
  | Op.hov f t => (handover pq f t).1
  | Op.ack r => (acknowledge pq r).1
  | Op.clr => clear pq
  | Op.pkr => (peekReserves pq).1

/-- State after a sequence of completed operations. -/
def run (pq : PQ) : List Op → PQ
  | [] => pq
  | op :: ops => run (step pq op) ops

/-- Total number of items held across the per-priority queues (summed over
the registered labels). -/
def totalLen (st : RState) : Nat :=
  ((st.zpriorities.map Prod.fst).map (fun p => (st.queues p).length)).sum

/-- Well-formedness of a queue state, true of every state reachable from a
fresh queue: distinct registered labels, the local cache registered in the
store, non-empty queues only under registered labels, the counter equal to
the total queued length, and at least as many blocking tokens as queued
items. -/
structure WF (pq : PQ) : Prop where
  nodup : (pq.store.zpriorities.map Prod.fst).Nodup
  localSub : ∀ p, (alookup pq.priorities p).isSome →
    p ∈ pq.store.zpriorities.map Prod.fst
  reg : ∀ p, pq.store.queues p ≠ [] → p ∈ pq.store.zpriorities.map Prod.fst
  cnt : pq.store.queueN.getD 0 = (totalLen pq.store : Int)
  tok : pq.store.queueN.getD 0 ≤ (pq.store.dummy : Int)

/-- True when a `dequeue` with this reserve option will consume one blocking
token: the reservation-slot peek (for a truthy reserve id) finds nothing and
the token pool is non-empty, so `BLPOP` pops a token. -/
def takesToken (pq : PQ) (r : Option String) : Bool :=
  (match truthy r with
   | some x => ((pq.store.slots x).head?).isNone
   | none => true) && !(pq.store.dummy == 0)

/-- True when a `dequeue` with this reserve option removes an item from some
priority queue: a token is taken and the rank-ordered scan finds a non-empty
queue. -/
def dequeuePops (pq : PQ) (r : Option String) : Bool :=
  takesToken pq r &&
    (firstQ pq.store.queues (priorityKeys pq.store.zpriorities none)).isSome

/-- Contribution of one operation to the count of successful enqueues. -/
def enqDelta (pq : PQ) : Op → Int
  | Op.enq d p =>
    match (enqueue pq d p).2 with
    | Res.ok _ => 1
    | Res.err _ => 0
  | _ => 0

/-- Contribution of one operation to the count of queue-item consumptions. -/
def consDelta (pq : PQ) : Op → Int
  | Op.deq r => if dequeuePops pq r then 1 else 0
  | _ => 0

/-- Operations allowed in the C5 trace: enqueue, dequeue and acknowledge. -/
def isEDA : Op → Bool
  | Op.enq _ _ => true
  | Op.deq _ => true
  | Op.ack _ => true
  | _ => false

/-- Running tally of successful enqueues minus queue-item consumptions along
a trace. -/
def ledger (pq : PQ) : List Op → Int
  | [] => 0
  | op :: ops => (enqDelta pq op - consDelta pq op) + ledger (step pq op) ops

/-! Basic lemmas about the Redis primitives. -/

theorem alookup_isSome_mem {m : List (String × Int)} {p : String}
    (h : (alookup m p).isSome) : p ∈ m.map Prod.fst := by
  induction m with
  | nil => simp [alookup] at h
  | cons e t ih =>
    by_cases he : e.1 = p
    · simp [he]
    · simp only [alookup] at h
      rw [if_neg he] at h
      simp [ih h]

theorem mem_sadd {s : List String} {x y : String} :
    y ∈ sadd s x ↔ y ∈ s ∨ y = x := by
  unfold sadd
  split
  · rename_i hx
    constructor
    · exact fun h => Or.inl h
    · rintro (h | rfl) <;> assumption
  · simp

theorem mem_srem {s : List String} {x y : String} :
    y ∈ srem s x ↔ y ∈ s ∧ y ≠ x := by
  simp [srem]

theorem firstQ_eq_none {qs : String → List String} {L : List String}
    (h : firstQ qs L = none) : ∀ p ∈ L, qs p = [] := by
  induction L with
  | nil => simp
  | cons a t ih =>
    intro p hp
    simp only [firstQ] at h
    rcases hq : (qs a).head? with _ | d
    · rw [hq] at h
      rcases List.mem_cons.mp hp with rfl | hp'
      · exact List.head?_eq_none_iff.mp hq
      · exact ih h p hp'
    · rw [hq] at h
      exact absurd h (by simp)

theorem firstQ_min {qs : String → List String} :
    ∀ {E : List (String × Int)}, E.Sorted zle →
    ∀ {p d : String}, firstQ qs (E.map Prod.fst) = some (p, d) →
    ∃ rp, (p, rp) ∈ E ∧ (qs p).head? = some d ∧
      ∀ q rq, (q, rq) ∈ E → rq < rp → qs q = [] := by
  intro E
  induction E with
  | nil => intro _ p d h; simp [firstQ] at h
  | cons a t ih =>
    intro hs p d h
    rw [List.sorted_cons] at hs
    simp only [List.map_cons, firstQ] at h
    rcases hq : (qs a.1).head? with _ | d0
    · rw [hq] at h
      obtain ⟨rp, hmem, hhead, hmin⟩ := ih hs.2 h
      refine ⟨rp, List.mem_cons_of_mem _ hmem, hhead, ?_⟩
      intro q rq hm hlt
      rcases List.mem_cons.mp hm with hqa | hm'
      · have hq1 : q = a.1 := congrArg Prod.fst hqa
        rw [hq1]
        exact List.head?_eq_none_iff.mp hq
      · exact hmin q rq hm' hlt
    · rw [hq] at h
      simp only [Option.some.injEq, Prod.mk.injEq] at h
      obtain ⟨h1, h2⟩ := h
      subst h1
      subst h2
      refine ⟨a.2, by simp, hq, ?_⟩
      intro q rq hm hlt
      rcases List.mem_cons.mp hm with hqa | hm'
      · exfalso
        have hr : rq = a.2 := congrArg Prod.snd hqa
        exact absurd (hr ▸ hlt) (lt_irrefl _)
      · exfalso
        rcases hs.1 _ hm' with h1 | ⟨h1, _⟩
        · exact absurd (hlt.trans h1) (lt_irrefl _)
        · exact absurd (h1 ▸ hlt) (lt_irrefl _)

theorem priorityKeys_none (zs : List (String × Int)) :
    priorityKeys zs none = zrangeLabels zs := by
  simp [priorityKeys]

theorem zrangeEntries_sorted (zs : List (String × Int)) :
    (zrangeEntries zs).Sorted zle :=
  List.sorted_insertionSort zle zs

theorem zrangeEntries_perm (zs : List (String × Int)) :
    List.Perm (zrangeEntries zs) zs :=
  List.perm_insertionSort zle zs

theorem zrangeLabels_perm (zs : List (String × Int)) :
    List.Perm (zrangeLabels zs) (zs.map Prod.fst) :=
  (zrangeEntries_perm zs).map Prod.fst

/-! Characterizations of the operations, used throughout the claim proofs. -/

theorem scriptDequeue_of_none {st : RState} {labels : List String} {r : Option String}
    (h : firstQ st.queues labels = none) :
    scriptDequeue st labels r = (st, none) := by
  unfold scriptDequeue
  rw [h]

theorem scriptDequeue_of_some {st : RState} {labels : List String} {r : Option String}
    {p d : String} (h : firstQ st.queues labels = some (p, d)) :
    (scriptDequeue st labels r).2 = some d ∧
    (scriptDequeue st labels r).1.queues = fupd st.queues p (st.queues p).tail ∧
    (scriptDequeue st labels r).1.queueN = some (st.queueN.getD 0 - 1) ∧
    (scriptDequeue st labels r).1.dummy = st.dummy ∧
    (scriptDequeue st labels r).1.zpriorities = st.zpriorities := by
  unfold scriptDequeue
  rw [h]
  rcases r with _ | x <;> exact ⟨rfl, rfl, rfl, rfl, rfl⟩

theorem scriptDequeue_slots_none {st : RState} {labels : List String} :
    (scriptDequeue st labels none).1.slots = st.slots ∧
    (scriptDequeue st labels none).1.reserves = st.reserves := by
  unfold scriptDequeue
  rcases h : firstQ st.queues labels with _ | pd
  · exact ⟨rfl, rfl⟩
  · rcases pd with ⟨p, d⟩
    exact ⟨rfl, rfl⟩

theorem dequeueRun_of_dummy0 {pq : PQ} {r : Option String} (h : pq.store.dummy = 0) :
    dequeueRun pq r = (pq, Res.ok none) := by
  unfold dequeueRun
  rw [if_pos h]

theorem dequeueRun_of_pos {pq : PQ} {r : Option String} (h : pq.store.dummy ≠ 0) :
    dequeueRun pq r =
      ({ pq with store := (scriptDequeue { pq.store with dummy := pq.store.dummy - 1 }
          (priorityKeys pq.store.zpriorities none) r).1 },
       Res.ok (scriptDequeue { pq.store with dummy := pq.store.dummy - 1 }
          (priorityKeys pq.store.zpriorities none) r).2) := by
  unfold dequeueRun
  rw [if_neg h]
  by_cases hk : priorityKeys pq.store.zpriorities none = []
  · rw [hk]
    rfl
  · have hk' : (priorityKeys pq.store.zpriorities none).isEmpty = false := by
      simpa using hk
    rw [hk']
    rfl

theorem dequeue_none_eq (pq : PQ) : dequeue pq none = dequeueRun pq none := rfl

theorem ack_store_frame (pq : PQ) (r : Option String) :
    (acknowledge pq r).1.store.queues = pq.store.queues ∧
    (acknowledge pq r).1.store.queueN = pq.store.queueN ∧
    (acknowledge pq r).1.store.dummy = pq.store.dummy ∧
    (acknowledge pq r).1.store.zpriorities = pq.store.zpriorities ∧
    (acknowledge pq r).1.priorities = pq.priorities := by
  unfold acknowledge ackScript
  split
  · exact ⟨rfl, rfl, rfl, rfl, rfl⟩
  · split <;> exact ⟨rfl, rfl, rfl, rfl, rfl⟩

theorem handover_store_frame (pq : PQ) (f t : String) :
    (handover pq f t).1.store.queues = pq.store.queues ∧
    (handover pq f t).1.store.queueN = pq.store.queueN ∧
    (handover pq f t).1.store.dummy = pq.store.dummy ∧
    (handover pq f t).1.store.zpriorities = pq.store.zpriorities ∧
    (handover pq f t).1.priorities = pq.priorities := by
  unfold handover
  split <;> exact ⟨rfl, rfl, rfl, rfl, rfl⟩

theorem peekReserves_store_frame (pq : PQ) :
    (peekReserves pq).1.store.queues = pq.store.queues ∧
    (peekReserves pq).1.store.queueN = pq.store.queueN ∧
    (peekReserves pq).1.store.dummy = pq.store.dummy ∧
    (peekReserves pq).1.store.zpriorities = pq.store.zpriorities ∧
    (peekReserves pq).1.priorities = pq.priorities :=
  ⟨rfl, rfl, rfl, rfl, rfl⟩

/-- C3: enqueueing under a priority label that is not registered fails with
the validation error `'priority not found'` and returns the state completely
unchanged — the JS guard fires before any Redis command runs, so the counter,
the token pool, and every queue are exactly as before. -/
theorem enqueue_unregistered_priority_no_mutation (pq : PQ) (data p : String)
    (h : alookup pq.priorities p = none) :
    enqueue pq data p = (pq, Res.err "priority not found") := by
  unfold enqueue
  rw [h]

/-- C3 witness: enqueueing under the unregistered label `"urgent"` on a fresh
default queue errors and leaves the state untouched. -/
theorem enqueue_unregistered_priority_no_mutation_witness :
    enqueue initDefault "job1" "urgent" = (initDefault, Res.err "priority not found") :=
  enqueue_unregistered_priority_no_mutation initDefault "job1" "urgent" (by decide)

/-- C10: `acknowledge` called with a falsy consumer id (absent/null, or the
empty string) returns immediately: the state is unchanged and the callback is
never invoked, so the caller receives neither a result nor an error. -/
theorem acknowledge_falsy_silent (pq : PQ) (r : Option String)
    (h : r = none ∨ r = some "") :
    acknowledge pq r = (pq, AckRes.silent) := by
  rcases h with rfl | rfl <;> rfl

/-- C10 witness: both falsy shapes of the consumer id on a fresh queue. -/
theorem acknowledge_falsy_silent_witness :
    acknowledge initDefault (some "") = (initDefault, AckRes.silent) ∧
    acknowledge initDefault none = (initDefault, AckRes.silent) :=
  ⟨acknowledge_falsy_silent initDefault (some "") (Or.inr rfl),
   acknowledge_falsy_silent initDefault none (Or.inl rfl)⟩

/-- C2 counterexample: the claim fails for the consumer id `""`.  A slot for
the empty id is reachable (`handover` does not guard against falsy ids), but
`dequeue({reserve: ''})` treats the falsy reserve option as absent and never
looks at that slot: here the slot front is `"i1"` yet the call returns the
empty result instead of `"i1"`. -/
theorem dequeue_reserved_peek_idempotent_cex :
    ((run initDefault [Op.enq "i1" "normal", Op.deq (some "a"),
        Op.hov "a" ""]).store.slots "").head? = some "i1" ∧
    (dequeue (run initDefault [Op.enq "i1" "normal", Op.deq (some "a"),
        Op.hov "a" ""]) (some "")).2 = Res.ok none ∧
    Res.ok (none : Option String) ≠ Res.ok (some "i1") := by
  refine ⟨by decide, by decide, by decide⟩

/-- C2 (amended to non-empty consumer ids): when consumer `r`'s reservation
slot is non-empty, `dequeue({reserve: r})` returns the front of that slot and
the state — every queue, the counter, the token pool and every slot — is
exactly unchanged, hence arbitrarily many repeated calls return the identical
item until `acknowledge`/`handover` removes it. -/
theorem dequeue_reserved_peek_idempotent (pq : PQ) (r d : String) (hr : r ≠ "")
    (h : (pq.store.slots r).head? = some d) :
    dequeue pq (some r) = (pq, Res.ok (some d)) := by
  have htr : truthy (some r) = some r := by
    show (if r = "" then none else some r) = some r
    rw [if_neg hr]
  unfold dequeue
  rw [htr]
  show (match (pq.store.slots r).head? with
    | some d0 => (pq, Res.ok (some d0))
    | none => dequeueRun pq (some r)) = (pq, Res.ok (some d))
  rw [h]

/-- C2 witness: after one enqueue and one reserving dequeue, repeated reserved
dequeues for `"x"` return the reserved item with the state unchanged. -/
theorem dequeue_reserved_peek_idempotent_witness :
    dequeue (run initDefault [Op.enq "a" "normal", Op.deq (some "x")]) (some "x") =
      (run initDefault [Op.enq "a" "normal", Op.deq (some "x")], Res.ok (some "a")) :=
  dequeue_reserved_peek_idempotent _ "x" "a" (by decide) (by decide)

/-- Equation for `handover` when the `from` slot is non-empty, mirroring the
Lua script's command order. -/
theorem handover_of_cons {pq : PQ} {f t d : String} {rest : List String}
    (h : pq.store.slots f = d :: rest) :
    handover pq f t =
      ({ pq with store := { pq.store with
          slots := fupd (fupd pq.store.slots f rest) t (fupd pq.store.slots f rest t ++ [d]),
          reserves := sadd (if (fupd pq.store.slots f rest f).isEmpty
            then srem pq.store.reserves f else pq.store.reserves) t } },
       some d) := by
  unfold handover
  rw [h]
  rfl

/-- C7: `handover(f, t)` pops the front of `f`'s reservation slot; when an
item `d` is present it is appended to the tail of `t`'s slot, `t` is added to
the reservation registry, `f` is removed from the registry exactly when its
slot became empty, other slots and registry entries are untouched, the queues
and counters do not change, and `d` is returned; when `f`'s slot is empty the
call returns the empty result and mutates nothing. -/
theorem handover_transfers_front (pq : PQ) (f t : String) :
    (pq.store.slots f = [] → handover pq f t = (pq, none)) ∧
    (∀ d rest, pq.store.slots f = d :: rest →
      (handover pq f t).2 = some d ∧
      (handover pq f t).1.store.slots t = (if f = t then rest else pq.store.slots t) ++ [d] ∧
      (f ≠ t → (handover pq f t).1.store.slots f = rest) ∧
      (∀ x, x ≠ f → x ≠ t → (handover pq f t).1.store.slots x = pq.store.slots x) ∧
      t ∈ (handover pq f t).1.store.reserves ∧
      (f ≠ t → ((f ∈ (handover pq f t).1.store.reserves) ↔
        (rest ≠ [] ∧ f ∈ pq.store.reserves))) ∧
      (∀ x, x ≠ f → x ≠ t → ((x ∈ (handover pq f t).1.store.reserves) ↔
        x ∈ pq.store.reserves)) ∧
      (handover pq f t).1.store.queues = pq.store.queues ∧
      (handover pq f t).1.store.queueN = pq.store.queueN ∧
      (handover pq f t).1.store.dummy = pq.store.dummy ∧
      (handover pq f t).1.store.zpriorities = pq.store.zpriorities) := by
  constructor
  · intro h0
    unfold handover
    rw [h0]
    rfl
  · intro d rest h
    rw [handover_of_cons h]
    refine ⟨rfl, ?_, ?_, ?_, ?_, ?_, ?_, rfl, rfl, rfl, rfl⟩
    · show fupd (fupd pq.store.slots f rest) t (fupd pq.store.slots f rest t ++ [d]) t = _
      rw [fupd, if_pos rfl, fupd]
      by_cases hft : f = t
      · rw [if_pos hft.symm, if_pos hft]
      · rw [if_neg (fun hh => hft hh.symm), if_neg hft]
    · intro hft
      show fupd (fupd pq.store.slots f rest) t (fupd pq.store.slots f rest t ++ [d]) f = rest
      rw [fupd, if_neg hft, fupd, if_pos rfl]
    · intro x hxf hxt
      show fupd (fupd pq.store.slots f rest) t (fupd pq.store.slots f rest t ++ [d]) x = _
      rw [fupd, if_neg hxt, fupd, if_neg hxf]
    · show t ∈ sadd _ t
      rw [mem_sadd]
      exact Or.inr rfl
    · intro hft
      show (f ∈ sadd (if (fupd pq.store.slots f rest f).isEmpty
        then srem pq.store.reserves f else pq.store.reserves) t) ↔ _
      rw [mem_sadd, fupd, if_pos rfl]
      rcases rest with _ | ⟨a, rest'⟩
      · simp [mem_srem, hft]
      · simp [hft]
    · intro x hxf hxt
      show (x ∈ sadd (if (fupd pq.store.slots f rest f).isEmpty
        then srem pq.store.reserves f else pq.store.reserves) t) ↔ _
      rw [mem_sadd, fupd, if_pos rfl]
      rcases rest with _ | ⟨a, rest'⟩
      · simp [mem_srem, hxf, hxt]
      · simp [hxt]

/-- C7 witness: after `"u"` hands `"a"` over to `"v"`, a further
`handover("v", "w")` moves `"a"` under `"w"` and returns it. -/
theorem handover_transfers_front_witness :
    (handover (run initDefault [Op.enq "a" "normal", Op.enq "b" "normal",
        Op.deq (some "u"), Op.hov "u" "v"]) "v" "w").2 = some "a" ∧
    (handover (run initDefault [Op.enq "a" "normal", Op.enq "b" "normal",
        Op.deq (some "u"), Op.hov "u" "v"]) "v" "w").1.store.slots "w" =
      (if "v" = "w" then ([] : List String) else (run initDefault [Op.enq "a" "normal",
        Op.enq "b" "normal", Op.deq (some "u"), Op.hov "u" "v"]).store.slots "w") ++ ["a"] :=
  ⟨((handover_transfers_front _ "v" "w").2 "a" [] (by decide)).1,
   ((handover_transfers_front _ "v" "w").2 "a" [] (by decide)).2.1⟩

/-! Equations for `enqueue`. -/

theorem enqueue_none_eq {pq : PQ} {data p : String}
    (h : alookup pq.priorities p = none) :
    enqueue pq data p = (pq, Res.err "priority not found") := by
  unfold enqueue
  rw [h]

theorem enqueue_eq_of_lookup {pq : PQ} {data p : String} {v : Int}
    (h : alookup pq.priorities p = some v) :
    enqueue pq data p = ({ pq with store := (scriptEnqueue pq.store p data).1 },
      (scriptEnqueue pq.store p data).2) := by
  unfold enqueue
  rw [h]

theorem scriptEnqueue_err_seg {st : RState} {p data : String} (h : luaLastSeg p = none) :
    scriptEnqueue st p data = (st, Res.err "lua error") := by
  unfold scriptEnqueue
  rw [h]

theorem scriptEnqueue_eq_of_score {st : RState} {priority data p0 : String}
    (h : luaLastSeg priority = some p0)
    (hz : zscoreMem st.zpriorities p0 = true) :
    scriptEnqueue st priority data =
      ({ st with queueN := some (st.queueN.getD 0 + 1),
                 dummy := st.dummy + ((st.queueN.getD 0 + 1) - (st.dummy : Int)).toNat,
                 queues := fupd st.queues priority (st.queues priority ++ [data]) },
       Res.ok (st.queues priority ++ [data]).length) := by
  unfold scriptEnqueue
  rw [h]
  simp only [hz, if_true]

theorem scriptEnqueue_err_score {st : RState} {priority data p0 : String}
    (h : luaLastSeg priority = some p0)
    (hz : zscoreMem st.zpriorities p0 = false) :
    scriptEnqueue st priority data = (st, Res.err "Priority not found") := by
  unfold scriptEnqueue
  rw [h]
  simp only [hz]
  rfl

/-- Case analysis for a completed `enqueue`: it either fails returning the
state unchanged, or all validations passed and the atomic update ran. -/
theorem enqueue_cases (pq : PQ) (data p : String) :
    (∃ e, enqueue pq data p = (pq, Res.err e)) ∨
    ((alookup pq.priorities p).isSome = true ∧
     enqueue pq data p =
       ({ pq with store := { pq.store with
            queueN := some (pq.store.queueN.getD 0 + 1),
            dummy := pq.store.dummy +
              ((pq.store.queueN.getD 0 + 1) - (pq.store.dummy : Int)).toNat,
            queues := fupd pq.store.queues p (pq.store.queues p ++ [data]) } },
        Res.ok (pq.store.queues p ++ [data]).length)) := by
  rcases hal : alookup pq.priorities p with _ | v
  · exact Or.inl ⟨_, enqueue_none_eq hal⟩
  · rcases hls : luaLastSeg p with _ | p0
    · refine Or.inl ⟨"lua error", ?_⟩
      rw [enqueue_eq_of_lookup hal, scriptEnqueue_err_seg hls]
    · rcases hz : zscoreMem pq.store.zpriorities p0 with _ | _
      · refine Or.inl ⟨"Priority not found", ?_⟩
        rw [enqueue_eq_of_lookup hal, scriptEnqueue_err_score hls hz]
      · refine Or.inr ⟨rfl, ?_⟩

        rw [enqueue_eq_of_lookup hal, scriptEnqueue_eq_of_score hls hz]

/-- C1: a successful plain dequeue removes and returns the head of the
non-empty queue whose priority has the lowest rank: the popped label `p` is
registered, the returned item is the head (earliest-enqueued element) of `p`'s
queue, that queue loses exactly its head, all other queues are untouched,
every registered queue of strictly lower rank is empty at that moment, the
counter is decremented, and reservations are untouched.  Jointly with the
final conjunct — a successful enqueue appends its item at the tail of its
label's queue — this gives strict FIFO order within one priority and strict
preference of lower-rank queues regardless of arrival time. -/
theorem dequeue_min_rank_fifo (pq : PQ) (d : String)
    (h : (dequeue pq none).2 = Res.ok (some d)) :
    (∃ p rp, (p, rp) ∈ pq.store.zpriorities ∧
      (pq.store.queues p).head? = some d ∧
      (dequeue pq none).1.store.queues p = (pq.store.queues p).tail ∧
      (∀ q, q ≠ p → (dequeue pq none).1.store.queues q = pq.store.queues q) ∧
      (∀ q rq, (q, rq) ∈ pq.store.zpriorities → rq < rp → pq.store.queues q = []) ∧
      (dequeue pq none).1.store.queueN = some (pq.store.queueN.getD 0 - 1) ∧
      (dequeue pq none).1.store.slots = pq.store.slots ∧
      (dequeue pq none).1.store.reserves = pq.store.reserves) ∧
    (∀ (pq2 : PQ) (item pr : String) (n : Nat),
      (enqueue pq2 item pr).2 = Res.ok n →
      (enqueue pq2 item pr).1.store.queues pr = pq2.store.queues pr ++ [item]) := by
  constructor
  · rw [dequeue_none_eq] at h ⊢
    by_cases h0 : pq.store.dummy = 0
    · rw [dequeueRun_of_dummy0 h0] at h
      exact absurd h (by simp)
    · rw [dequeueRun_of_pos h0] at h ⊢
      have h2 : (scriptDequeue { pq.store with dummy := pq.store.dummy - 1 }
          (priorityKeys pq.store.zpriorities none) none).2 = some d := by
        have hh := h
        simp only [Res.ok.injEq] at hh
        exact hh
      rcases hfq : firstQ ({ pq.store with dummy := pq.store.dummy - 1 } : RState).queues
          (priorityKeys pq.store.zpriorities none) with _ | pd
      · rw [scriptDequeue_of_none hfq] at h2
        exact absurd h2 (by simp)
      · rcases pd with ⟨p, d0⟩
        obtain ⟨hr2, hq, hn, _, _⟩ :=
          scriptDequeue_of_some (r := (none : Option String)) hfq
        have hd0 : d0 = d := by
          rw [hr2] at h2
          injection h2
        subst hd0
        have hkeys : priorityKeys pq.store.zpriorities none =
            (zrangeEntries pq.store.zpriorities).map Prod.fst := by
          rw [priorityKeys_none]
          rfl
        rw [hkeys] at hfq
        obtain ⟨rp, hmem, hhead, hmin⟩ :=
          firstQ_min (zrangeEntries_sorted pq.store.zpriorities) hfq
        refine ⟨p, rp, (zrangeEntries_perm pq.store.zpriorities).subset hmem, hhead,
          ?_, ?_, ?_, hn, (scriptDequeue_slots_none).1, (scriptDequeue_slots_none).2⟩
        · rw [hq]
          show (if p = p then (pq.store.queues p).tail else pq.store.queues p) = _
          rw [if_pos rfl]
        · intro q hqp
          rw [hq]
          show (if q = p then (pq.store.queues p).tail else pq.store.queues q) = _
          rw [if_neg hqp]
        · intro q rq hqm hlt
          exact hmin q rq ((zrangeEntries_perm pq.store.zpriorities).mem_iff.mpr hqm) hlt
  · intro pq2 item pr n hok
    rcases enqueue_cases pq2 item pr with ⟨e, he⟩ | ⟨_, he⟩
    · rw [he] at hok
      exact absurd hok (by simp)
    · rw [he]
      show fupd pq2.store.queues pr (pq2.store.queues pr ++ [item]) pr = _
      rw [fupd, if_pos rfl]

/-- C1 witness: with `"a"` in the normal queue and `"c"` in the critical
queue, a plain dequeue exercises the theorem at a concrete state (it returns
`"c"`, the head of the lowest-rank non-empty queue). -/
theorem dequeue_min_rank_fifo_witness :
    (∃ p rp, (p, rp) ∈ (run initDefault [Op.enq "a" "normal",
        Op.enq "c" "critical"]).store.zpriorities ∧
      ((run initDefault [Op.enq "a" "normal", Op.enq "c" "critical"]).store.queues p).head? =
        some "c" ∧
      (dequeue (run initDefault [Op.enq "a" "normal", Op.enq "c" "critical"])
          none).1.store.queues p =
        ((run initDefault [Op.enq "a" "normal", Op.enq "c" "critical"]).store.queues p).tail ∧
      (∀ q, q ≠ p →
        (dequeue (run initDefault [Op.enq "a" "normal", Op.enq "c" "critical"])
            none).1.store.queues q =
          (run initDefault [Op.enq "a" "normal", Op.enq "c" "critical"]).store.queues q) ∧
      (∀ q rq, (q, rq) ∈ (run initDefault [Op.enq "a" "normal",
          Op.enq "c" "critical"]).store.zpriorities → rq < rp →
        (run initDefault [Op.enq "a" "normal", Op.enq "c" "critical"]).store.queues q = []) ∧
      (dequeue (run initDefault [Op.enq "a" "normal", Op.enq "c" "critical"])
          none).1.store.queueN =
        some ((run initDefault [Op.enq "a" "normal",
          Op.enq "c" "critical"]).store.queueN.getD 0 - 1) ∧
      (dequeue (run initDefault [Op.enq "a" "normal", Op.enq "c" "critical"])
          none).1.store.slots =
        (run initDefault [Op.enq "a" "normal", Op.enq "c" "critical"]).store.slots ∧
      (dequeue (run initDefault [Op.enq "a" "normal", Op.enq "c" "critical"])
          none).1.store.reserves =
        (run initDefault [Op.enq "a" "normal", Op.enq "c" "critical"]).store.reserves) ∧
    (∀ (pq2 : PQ) (item pr : String) (n : Nat),
      (enqueue pq2 item pr).2 = Res.ok n →
      (enqueue pq2 item pr).1.store.queues pr = pq2.store.queues pr ++ [item]) :=
  dequeue_min_rank_fifo (run initDefault [Op.enq "a" "normal", Op.enq "c" "critical"])
    "c" (by decide)

/-! Lemmas about `ZADD`. -/

theorem mem_labels_upsert {zs : List (String × Int)} {k l : String} {v : Int}
    (h : l ∈ zs.map Prod.fst) : l ∈ (upsert zs k v).map Prod.fst := by
  unfold upsert
  split
  · obtain ⟨e, he, rfl⟩ := List.mem_map.mp h
    refine List.mem_map.mpr ⟨if e.1 = k then (k, v) else e, List.mem_map_of_mem _ he, ?_⟩
    by_cases hek : e.1 = k <;> simp [hek]
  · simp only [List.map_append, List.mem_append]
    exact Or.inl h

theorem zadd_mem_labels {zs es : List (String × Int)} {l : String}
    (h : l ∈ zs.map Prod.fst) : l ∈ (zadd zs es).map Prod.fst := by
  induction es generalizing zs with
  | nil => exact h
  | cons e t ih => exact ih (mem_labels_upsert h)

/-- C8 counterexample: `setPriorities` does not replace the stored mapping.
Registering only `"solo"` over the default mapping leaves the previously
registered `"normal"` (absent from the argument) in the stored sorted set,
even though the in-memory cache was replaced. -/
theorem setPriorities_stale_label_cex :
    (setPriorities initDefault [("solo", some 7)]).1.priorities = [("solo", 7)] ∧
    "normal" ∈ (setPriorities initDefault
      [("solo", some 7)]).1.store.zpriorities.map Prod.fst ∧
    "normal" ∉ (["solo"] : List String) := by
  refine ⟨by decide, by decide, by decide⟩

/-- C8 (amended): with all-numeric values, `setPriorities` replaces the
in-memory `_priorities` cache with exactly the given mapping but only
`ZADD`-upserts the stored sorted set, so every previously stored label is
still registered afterwards; with a non-numeric value it fails with the
validation error and writes nothing at all (neither cache nor store). -/
theorem setPriorities_upsert_no_replace (pq : PQ) (m : List (String × Option Int)) :
    (m.all (fun e => e.2.isSome) = true →
      (setPriorities pq m).1.priorities =
        m.filterMap (fun e => e.2.map (fun v => (e.1, v))) ∧
      (setPriorities pq m).1.store.zpriorities =
        zadd pq.store.zpriorities (m.filterMap (fun e => e.2.map (fun v => (e.1, v)))) ∧
      (∀ l, l ∈ pq.store.zpriorities.map Prod.fst →
        l ∈ (setPriorities pq m).1.store.zpriorities.map Prod.fst) ∧
      (setPriorities pq m).2 = none) ∧
    (m.all (fun e => e.2.isSome) = false →
      setPriorities pq m = (pq, some "priority value must be number")) := by
  constructor
  · intro hall
    unfold setPriorities
    rw [if_pos hall]
    exact ⟨rfl, rfl, fun l hl => zadd_mem_labels hl, rfl⟩
  · intro hall
    unfold setPriorities
    rw [if_neg (by simp [hall])]

/-- C8 witness: the amended statement at the counterexample's input, plus the
rejection branch on a non-numeric value. -/
theorem setPriorities_upsert_no_replace_witness :
    ((List.all [("solo", some 7)] (fun e => e.2.isSome) = true →
      (setPriorities initDefault [("solo", some 7)]).1.priorities =
        List.filterMap (fun e => e.2.map (fun v => (e.1, v))) [("solo", some 7)] ∧
      (setPriorities initDefault [("solo", some 7)]).1.store.zpriorities =
        zadd initDefault.store.zpriorities
          (List.filterMap (fun e => e.2.map (fun v => (e.1, v))) [("solo", some 7)]) ∧
      (∀ l, l ∈ initDefault.store.zpriorities.map Prod.fst →
        l ∈ (setPriorities initDefault [("solo", some 7)]).1.store.zpriorities.map Prod.fst) ∧
      (setPriorities initDefault [("solo", some 7)]).2 = none) ∧
     (List.all [("solo", some 7)] (fun e => e.2.isSome) = false →
      setPriorities initDefault [("solo", some 7)] =
        (initDefault, some "priority value must be number"))) ∧
    setPriorities initDefault [("bad", none)] =
      (initDefault, some "priority value must be number") :=
  ⟨setPriorities_upsert_no_replace initDefault [("solo", some 7)],
   (setPriorities_upsert_no_replace initDefault [("bad", none)]).2 (by decide)⟩

/-- C9 counterexample: immediately after `clear()` the no-argument `count`
does not return 0 — the counter key was deleted, `GET` returns nil and
`parseInt(null)` is `NaN` (modelled `none`) — even though before the clear it
returned 1. -/
theorem clear_unfiltered_count_cex :
    count (run initDefault [Op.enq "a" "normal"]) none = some 1 ∧
    count (clear (run initDefault [Op.enq "a" "normal"])) none = none ∧
    (none : Option Int) ≠ some 0 := by
  refine ⟨by decide, by decide, by decide⟩

/-- C9 (amended): `clear` empties every registered per-priority queue and
every reservation slot listed in the registry, deletes the registry, the
counter and the token pool, and leaves the priority registry (both the stored
sorted set and the local cache) unchanged; immediately afterwards `count`
over any explicit non-empty priority list returns 0, the no-argument `count`
returns `NaN` (`none`) because the counter key is gone, and `peekReserves`
returns the empty mapping. -/
theorem clear_deletes_state (pq : PQ) :
    (∀ p, p ∈ pq.store.zpriorities.map Prod.fst → (clear pq).store.queues p = []) ∧
    (∀ r, r ∈ pq.store.reserves → (clear pq).store.slots r = []) ∧
    (clear pq).store.reserves = [] ∧
    (clear pq).store.queueN = none ∧
    (clear pq).store.dummy = 0 ∧
    (clear pq).store.zpriorities = pq.store.zpriorities ∧
    (clear pq).priorities = pq.priorities ∧
    (∀ ps, ps ≠ [] → count (clear pq) (some ps) = some 0) ∧
    count (clear pq) none = none ∧
    (peekReserves (clear pq)).2 = [] := by
  refine ⟨?_, ?_, rfl, rfl, rfl, rfl, rfl, ?_, rfl, rfl⟩
  · intro p hp
    show (if decide (p ∈ zrangeLabels pq.store.zpriorities) then []
      else pq.store.queues p) = []
    rw [if_pos (by simpa using (zrangeLabels_perm pq.store.zpriorities).mem_iff.mpr hp)]
  · intro r hr
    show (if decide (r ∈ pq.store.reserves) then [] else pq.store.slots r) = []
    rw [if_pos (by simpa using hr)]
  · intro ps hps
    show (if ps.isEmpty = true then (clear pq).store.queueN
      else some (List.map (fun p => (((clear pq).store.queues p).length : Int))
        (priorityKeys (clear pq).store.zpriorities (some ps))).sum) = some 0
    rw [if_neg (by simpa using hps)]
    refine congrArg some (List.sum_eq_zero ?_)
    intro x hx
    obtain ⟨p, hp, rfl⟩ := List.mem_map.mp hx
    have hpz : p ∈ zrangeLabels pq.store.zpriorities :=
      (List.mem_filter.mp hp).1
    have hq0 : (clear pq).store.queues p = [] := by
      show (if decide (p ∈ zrangeLabels pq.store.zpriorities) then []
        else pq.store.queues p) = []
      rw [if_pos (by simpa using hpz)]
    rw [hq0]
    rfl

/-- C9 witness: the amended statement applied after one enqueue. -/
theorem clear_deletes_state_witness :
    (∀ p, p ∈ (run initDefault [Op.enq "a" "normal"]).store.zpriorities.map Prod.fst →
      (clear (run initDefault [Op.enq "a" "normal"])).store.queues p = []) ∧
    (∀ r, r ∈ (run initDefault [Op.enq "a" "normal"]).store.reserves →
      (clear (run initDefault [Op.enq "a" "normal"])).store.slots r = []) ∧
    (clear (run initDefault [Op.enq "a" "normal"])).store.reserves = [] ∧
    (clear (run initDefault [Op.enq "a" "normal"])).store.queueN = none ∧
    (clear (run initDefault [Op.enq "a" "normal"])).store.dummy = 0 ∧
    (clear (run initDefault [Op.enq "a" "normal"])).store.zpriorities =
      (run initDefault [Op.enq "a" "normal"]).store.zpriorities ∧
    (clear (run initDefault [Op.enq "a" "normal"])).priorities =
      (run initDefault [Op.enq "a" "normal"]).priorities ∧
    (∀ ps, ps ≠ [] →
      count (clear (run initDefault [Op.enq "a" "normal"])) (some ps) = some 0) ∧
    count (clear (run initDefault [Op.enq "a" "normal"])) none = none ∧
    (peekReserves (clear (run initDefault [Op.enq "a" "normal"]))).2 = [] :=
  clear_deletes_state (run initDefault [Op.enq "a" "normal"])

/-! Preservation of well-formedness by every operation. -/

theorem firstQ_mem {qs : String → List String} {L : List String} {p d : String}
    (h : firstQ qs L = some (p, d)) : p ∈ L ∧ (qs p).head? = some d := by
  induction L with
  | nil => simp [firstQ] at h
  | cons a t ih =>
    simp only [firstQ] at h
    rcases hq : (qs a).head? with _ | d0
    · rw [hq] at h
      obtain ⟨hm, hh⟩ := ih h
      exact ⟨List.mem_cons_of_mem _ hm, hh⟩
    · rw [hq] at h
      simp only [Option.some.injEq, Prod.mk.injEq] at h
      obtain ⟨rfl, rfl⟩ := h
      exact ⟨List.mem_cons_self _ _, hq⟩

theorem totalLen_int (st : RState) :
    (totalLen st : Int) =
      ((st.zpriorities.map Prod.fst).map (fun p => ((st.queues p).length : Int))).sum := by
  unfold totalLen
  rw [Nat.cast_list_sum, List.map_map]
  rfl

theorem sum_fupd_length {L : List String} (hnd : L.Nodup) {f : String → List String}
    {p : String} (hp : p ∈ L) (v : List String) :
    (L.map (fun l => ((fupd f p v l).length : Int))).sum =
      (L.map (fun l => ((f l).length : Int))).sum + v.length - (f p).length := by
  induction L with
  | nil => cases hp
  | cons a t ih =>
    rw [List.nodup_cons] at hnd
    rcases List.mem_cons.mp hp with rfl | hpt
    · simp only [List.map_cons, List.sum_cons]
      have h1 : fupd f p v p = v := by
        rw [fupd, if_pos rfl]
      have h2 : t.map (fun l => ((fupd f p v l).length : Int)) =
          t.map (fun l => ((f l).length : Int)) := by
        apply List.map_congr_left
        intro l hl
        have hlp : l ≠ p := fun hlp => hnd.1 (hlp ▸ hl)
        rw [fupd, if_neg hlp]
      rw [h1, h2]
      ring
    · have hap : a ≠ p := fun hap => hnd.1 (hap ▸ hpt)
      simp only [List.map_cons, List.sum_cons]
      rw [ih hnd.2 hpt]
      have h3 : fupd f p v a = f a := by
        rw [fupd, if_neg hap]
      rw [h3]
      ring

theorem length_le_sum {L : List String} {f : String → List String} {p : String}
    (hp : p ∈ L) :
    ((f p).length : Int) ≤ (L.map (fun l => ((f l).length : Int))).sum := by
  apply List.single_le_sum
  · intro x hx
    obtain ⟨l, _, rfl⟩ := List.mem_map.mp hx
    positivity
  · exact List.mem_map_of_mem _ hp

theorem WF_frame {pq pq' : PQ} (h : WF pq)
    (hpr : pq'.priorities = pq.priorities)
    (hz : pq'.store.zpriorities = pq.store.zpriorities)
    (hq : pq'.store.queues = pq.store.queues)
    (hn : pq'.store.queueN = pq.store.queueN)
    (hd : pq'.store.dummy = pq.store.dummy) : WF pq' := by
  have htl : totalLen pq'.store = totalLen pq.store := by
    unfold totalLen
    rw [hz, hq]
  constructor
  · rw [hz]
    exact h.nodup
  · intro p hp
    rw [hz]
    rw [hpr] at hp
    exact h.localSub p hp
  · intro p hp
    rw [hz]
    rw [hq] at hp
    exact h.reg p hp
  · rw [hn, htl]
    exact h.cnt
  · rw [hn, hd]
    exact h.tok

theorem WF_ack (pq : PQ) (r : Option String) (h : WF pq) : WF (acknowledge pq r).1 := by
  obtain ⟨h1, h2, h3, h4, h5⟩ := ack_store_frame pq r
  exact WF_frame h h5 h4 h1 h2 h3

theorem WF_hov (pq : PQ) (f t : String) (h : WF pq) : WF (handover pq f t).1 := by
  obtain ⟨h1, h2, h3, h4, h5⟩ := handover_store_frame pq f t
  exact WF_frame h h5 h4 h1 h2 h3

theorem WF_pkr (pq : PQ) (h : WF pq) : WF (peekReserves pq).1 := by
  obtain ⟨h1, h2, h3, h4, h5⟩ := peekReserves_store_frame pq
  exact WF_frame h h5 h4 h1 h2 h3

theorem WF_clear (pq : PQ) (h : WF pq) : WF (clear pq) := by
  have htl : totalLen (clear pq).store = 0 := by
    unfold totalLen
    apply List.sum_eq_zero
    intro x hx
    obtain ⟨p, hp, rfl⟩ := List.mem_map.mp hx
    have hzr : p ∈ zrangeLabels pq.store.zpriorities :=
      (zrangeLabels_perm pq.store.zpriorities).mem_iff.mpr hp
    show ((if decide (p ∈ zrangeLabels pq.store.zpriorities) then []
      else pq.store.queues p) : List String).length = 0
    rw [if_pos (by simpa using hzr)]
    rfl
  constructor
  · exact h.nodup
  · intro p hp
    exact h.localSub p hp
  · intro p hp
    exact h.reg p (by
      intro hq0
      apply hp
      show (if decide (p ∈ zrangeLabels pq.store.zpriorities) then []
        else pq.store.queues p) = []
      by_cases hpz : p ∈ zrangeLabels pq.store.zpriorities
      · rw [if_pos (by simpa using hpz)]
      · rw [if_neg (by simpa using hpz)]
        exact hq0)
  · rw [htl]
    rfl
  · show (0 : Int) ≤ ((0 : Nat) : Int)
    simp

theorem WF_enqueue (pq : PQ) (d p : String) (h : WF pq) : WF (enqueue pq d p).1 := by
  rcases enqueue_cases pq d p with ⟨e, he⟩ | ⟨hsome, he⟩
  · rw [he]
    exact h
  · rw [he]
    have hp : p ∈ pq.store.zpriorities.map Prod.fst := h.localSub p hsome
    have hlen : (pq.store.queues p ++ [d]).length = (pq.store.queues p).length + 1 := by
      simp
    constructor
    · exact h.nodup
    · intro q hq
      exact h.localSub q hq
    · intro q hq
      by_cases hqp : q = p
      · rw [hqp]
        exact hp
      · apply h.reg q
        show pq.store.queues q ≠ []
        intro hq0
        apply hq
        show fupd pq.store.queues p (pq.store.queues p ++ [d]) q = []
        rw [fupd, if_neg hqp]
        exact hq0
    · show (some (pq.store.queueN.getD 0 + 1)).getD 0 = _
      rw [Option.getD_some, totalLen_int]
      show _ = (List.map (fun l =>
        ((fupd pq.store.queues p (pq.store.queues p ++ [d]) l).length : Int))
          (pq.store.zpriorities.map Prod.fst)).sum
      rw [sum_fupd_length h.nodup hp, hlen]
      have hc := h.cnt
      rw [totalLen_int] at hc
      rw [← hc]
      push_cast
      ring
    · show (some (pq.store.queueN.getD 0 + 1)).getD 0 ≤
        ((pq.store.dummy + ((pq.store.queueN.getD 0 + 1) - (pq.store.dummy : Int)).toNat : Nat) : Int)
      rw [Option.getD_some]
      push_cast
      omega

theorem WF_dequeueRun (pq : PQ) (r : Option String) (h : WF pq) :
    WF (dequeueRun pq r).1 := by
  by_cases h0 : pq.store.dummy = 0
  · rw [dequeueRun_of_dummy0 h0]
    exact h
  · rw [dequeueRun_of_pos h0]
    rcases hfq : firstQ ({ pq.store with dummy := pq.store.dummy - 1 } : RState).queues
        (priorityKeys pq.store.zpriorities none) with _ | pd
    · rw [scriptDequeue_of_none hfq]
      have hempty : ∀ l ∈ priorityKeys pq.store.zpriorities none, pq.store.queues l = [] :=
        firstQ_eq_none hfq
      have htl : totalLen pq.store = 0 := by
        unfold totalLen
        apply List.sum_eq_zero
        intro x hx
        obtain ⟨q, hq, rfl⟩ := List.mem_map.mp hx
        have hq' : q ∈ priorityKeys pq.store.zpriorities none := by
          rw [priorityKeys_none]
          exact (zrangeLabels_perm pq.store.zpriorities).mem_iff.mpr hq
        rw [hempty q hq']
        rfl
      constructor
      · exact h.nodup
      · intro q hq
        exact h.localSub q hq
      · intro q hq
        exact h.reg q hq
      · show pq.store.queueN.getD 0 = (totalLen pq.store : Int)
        exact h.cnt
      · show pq.store.queueN.getD 0 ≤ ((pq.store.dummy - 1 : Nat) : Int)
        rw [h.cnt, htl]
        simp
    · rcases pd with ⟨p, d⟩
      obtain ⟨hr2, hq, hn, hdm, hz⟩ := scriptDequeue_of_some (r := r) hfq
      have hq' : (scriptDequeue { pq.store with dummy := pq.store.dummy - 1 }
          (priorityKeys pq.store.zpriorities none) r).1.queues =
          fupd pq.store.queues p (pq.store.queues p).tail := hq
      have hn' : (scriptDequeue { pq.store with dummy := pq.store.dummy - 1 }
          (priorityKeys pq.store.zpriorities none) r).1.queueN =
          some (pq.store.queueN.getD 0 - 1) := hn
      have hdm' : (scriptDequeue { pq.store with dummy := pq.store.dummy - 1 }
          (priorityKeys pq.store.zpriorities none) r).1.dummy =
          pq.store.dummy - 1 := hdm
      have hz' : (scriptDequeue { pq.store with dummy := pq.store.dummy - 1 }
          (priorityKeys pq.store.zpriorities none) r).1.zpriorities =
          pq.store.zpriorities := hz
      have hmem : p ∈ priorityKeys pq.store.zpriorities none ∧
          (pq.store.queues p).head? = some d := firstQ_mem hfq
      have hpl : p ∈ pq.store.zpriorities.map Prod.fst := by
        have hk := hmem.1
        rw [priorityKeys_none] at hk
        exact (zrangeLabels_perm pq.store.zpriorities).mem_iff.mp hk
      obtain ⟨rest, hrest⟩ : ∃ rest, pq.store.queues p = d :: rest := by
        rcases hql : pq.store.queues p with _ | ⟨a, l⟩
        · have hh := hmem.2
          rw [hql] at hh
          exact absurd hh (by simp)
        · have hh := hmem.2
          rw [hql] at hh
          simp only [List.head?_cons, Option.some.injEq] at hh
          exact ⟨l, by rw [hh]⟩
      constructor
      · show ((scriptDequeue { pq.store with dummy := pq.store.dummy - 1 }
          (priorityKeys pq.store.zpriorities none) r).1.zpriorities.map Prod.fst).Nodup
        rw [hz']
        exact h.nodup
      · intro q hql
        show q ∈ (scriptDequeue { pq.store with dummy := pq.store.dummy - 1 }
          (priorityKeys pq.store.zpriorities none) r).1.zpriorities.map Prod.fst
        rw [hz']
        exact h.localSub q hql
      · intro q hql
        show q ∈ (scriptDequeue { pq.store with dummy := pq.store.dummy - 1 }
          (priorityKeys pq.store.zpriorities none) r).1.zpriorities.map Prod.fst
        rw [hz']
        have hql2 : (scriptDequeue { pq.store with dummy := pq.store.dummy - 1 }
            (priorityKeys pq.store.zpriorities none) r).1.queues q ≠ [] := hql
        rw [hq'] at hql2
        by_cases hqp : q = p
        · rw [hqp]
          exact hpl
        · apply h.reg q
          rw [fupd, if_neg hqp] at hql2
          exact hql2
      · show (scriptDequeue { pq.store with dummy := pq.store.dummy - 1 }
          (priorityKeys pq.store.zpriorities none) r).1.queueN.getD 0 =
          (totalLen (scriptDequeue { pq.store with dummy := pq.store.dummy - 1 }
            (priorityKeys pq.store.zpriorities none) r).1 : Int)
        rw [totalLen_int, hz', hq', hn', Option.getD_some,
          sum_fupd_length h.nodup hpl]
        have hc := h.cnt
        rw [totalLen_int] at hc
        rw [← hc, hrest]
        simp only [List.tail_cons, List.length_cons]
        push_cast
        omega
      · show (scriptDequeue { pq.store with dummy := pq.store.dummy - 1 }
          (priorityKeys pq.store.zpriorities none) r).1.queueN.getD 0 ≤
          ((scriptDequeue { pq.store with dummy := pq.store.dummy - 1 }
            (priorityKeys pq.store.zpriorities none) r).1.dummy : Int)
        rw [hn', hdm', Option.getD_some]
        have := h.tok
        omega

theorem WF_dequeue (pq : PQ) (r : Option String) (h : WF pq) : WF (dequeue pq r).1 := by
  unfold dequeue
  rcases htr : truthy r with _ | x
  · exact WF_dequeueRun pq none h
  · show WF (match (pq.store.slots x).head? with
      | some d0 => (pq, Res.ok (some d0))
      | none => dequeueRun pq (some x)).1
    rcases hsl : (pq.store.slots x).head? with _ | d
    · exact WF_dequeueRun pq (some x) h
    · exact h

theorem WF_step (pq : PQ) (h : WF pq) : ∀ op, WF (step pq op) := by
  intro op
  cases op with
  | enq d p => exact WF_enqueue pq d p h
  | deq r => exact WF_dequeue pq r h
  | pk f => exact h
  | hov f t => exact WF_hov pq f t h
  | ack r => exact WF_ack pq r h
  | clr => exact WF_clear pq h
  | pkr => exact WF_pkr pq h

theorem WF_initDefault : WF initDefault := by
  constructor
  · decide
  · intro p hp
    have hm : p ∈ defaultPriorities.map Prod.fst := alookup_isSome_mem hp
    have hz : initDefault.store.zpriorities.map Prod.fst = defaultPriorities.map Prod.fst := by
      decide
    rw [hz]
    exact hm
  · intro p hp
    exact absurd rfl hp
  · decide
  · decide

/-- C6: starting from any well-formed state (every state reachable from a
fresh queue is), after any completed operation the global counter equals the
total number of items across the per-priority queues — items parked in
reservation slots are not counted — and non-empty queues exist only under
registered labels; moreover `acknowledge` never changes any queue or the
counter. -/
theorem counter_eq_total_queue_length (pq : PQ) (h : WF pq) :
    (∀ op, (step pq op).store.queueN.getD 0 = (totalLen (step pq op).store : Int) ∧
      (∀ p, (step pq op).store.queues p ≠ [] →
        p ∈ (step pq op).store.zpriorities.map Prod.fst)) ∧
    (∀ r, (step pq (Op.ack r)).store.queues = pq.store.queues ∧
      (step pq (Op.ack r)).store.queueN = pq.store.queueN) := by
  refine ⟨fun op => ⟨(WF_step pq h op).cnt, (WF_step pq h op).reg⟩, fun r => ?_⟩
  exact ⟨(ack_store_frame pq r).1, (ack_store_frame pq r).2.1⟩

/-- C6 witness: the invariant instantiated at the fresh default queue. -/
theorem counter_eq_total_queue_length_witness :
    (∀ op, (step initDefault op).store.queueN.getD 0 =
        (totalLen (step initDefault op).store : Int) ∧
      (∀ p, (step initDefault op).store.queues p ≠ [] →
        p ∈ (step initDefault op).store.zpriorities.map Prod.fst)) ∧
    (∀ r, (step initDefault (Op.ack r)).store.queues = initDefault.store.queues ∧
      (step initDefault (Op.ack r)).store.queueN = initDefault.store.queueN) :=
  counter_eq_total_queue_length initDefault WF_initDefault

/-! Token and counter deltas of a completed dequeue. -/

theorem scriptDequeue_dummy (st : RState) (labels : List String) (r : Option String) :
    (scriptDequeue st labels r).1.dummy = st.dummy := by
  rcases hfq : firstQ st.queues labels with _ | pd
  · rw [scriptDequeue_of_none hfq]
  · rcases pd with ⟨p, d⟩
    exact (scriptDequeue_of_some hfq).2.2.2.1

theorem dequeueRun_dummy (pq : PQ) (r : Option String) :
    (dequeueRun pq r).1.store.dummy =
      (if pq.store.dummy = 0 then pq.store.dummy else pq.store.dummy - 1) := by
  by_cases h0 : pq.store.dummy = 0
  · rw [dequeueRun_of_dummy0 h0, if_pos h0]
  · rw [dequeueRun_of_pos h0, if_neg h0]
    exact scriptDequeue_dummy _ _ _

theorem dequeueRun_counter (pq : PQ) (r : Option String) :
    (dequeueRun pq r).1.store.queueN =
      (if (!(pq.store.dummy == 0) &&
          (firstQ pq.store.queues (priorityKeys pq.store.zpriorities none)).isSome : Bool)
       then some (pq.store.queueN.getD 0 - 1) else pq.store.queueN) := by
  by_cases h0 : pq.store.dummy = 0
  · rw [dequeueRun_of_dummy0 h0, if_neg (by simp [h0])]
  · rw [dequeueRun_of_pos h0]
    rcases hfq : firstQ pq.store.queues (priorityKeys pq.store.zpriorities none) with _ | pd
    · have hfq' : firstQ ({ pq.store with dummy := pq.store.dummy - 1 } : RState).queues
          (priorityKeys pq.store.zpriorities none) = none := hfq
      rw [scriptDequeue_of_none hfq', if_neg (by simp [hfq])]
    · rcases pd with ⟨p, d⟩
      have hfq' : firstQ ({ pq.store with dummy := pq.store.dummy - 1 } : RState).queues
          (priorityKeys pq.store.zpriorities none) = some (p, d) := hfq
      have hn' : (scriptDequeue { pq.store with dummy := pq.store.dummy - 1 }
          (priorityKeys pq.store.zpriorities none) r).1.queueN =
          some (pq.store.queueN.getD 0 - 1) := (scriptDequeue_of_some hfq').2.2.1
      rw [if_pos (by simp [h0, hfq])]
      exact hn'

theorem dequeue_dummy_eq (pq : PQ) (r : Option String) :
    (dequeue pq r).1.store.dummy =
      (if takesToken pq r then pq.store.dummy - 1 else pq.store.dummy) := by
  unfold dequeue takesToken
  rcases htr : truthy r with _ | x
  · show (dequeueRun pq none).1.store.dummy =
      (if ((true && !(pq.store.dummy == 0) : Bool) = true)
       then pq.store.dummy - 1 else pq.store.dummy)
    rw [dequeueRun_dummy]
    by_cases h0 : pq.store.dummy = 0 <;> simp [h0]
  · show (match (pq.store.slots x).head? with
      | some d0 => (pq, Res.ok (some d0))
      | none => dequeueRun pq (some x)).1.store.dummy =
      (if ((((pq.store.slots x).head?).isNone && !(pq.store.dummy == 0) : Bool) = true)
       then pq.store.dummy - 1 else pq.store.dummy)
    rcases hsl : (pq.store.slots x).head? with _ | d
    · show (dequeueRun pq (some x)).1.store.dummy = _
      rw [dequeueRun_dummy]
      by_cases h0 : pq.store.dummy = 0 <;> simp [h0]
    · simp

theorem dequeue_counter_eq (pq : PQ) (r : Option String) :
    (dequeue pq r).1.store.queueN =
      (if dequeuePops pq r then some (pq.store.queueN.getD 0 - 1)
       else pq.store.queueN) := by
  unfold dequeue dequeuePops takesToken
  rcases htr : truthy r with _ | x
  · show (dequeueRun pq none).1.store.queueN =
      (if (((true && !(pq.store.dummy == 0) : Bool) &&
          (firstQ pq.store.queues (priorityKeys pq.store.zpriorities none)).isSome : Bool) = true)
       then some (pq.store.queueN.getD 0 - 1) else pq.store.queueN)
    rw [dequeueRun_counter]
    by_cases h0 : pq.store.dummy = 0 <;> simp [h0]
  · show (match (pq.store.slots x).head? with
      | some d0 => (pq, Res.ok (some d0))
      | none => dequeueRun pq (some x)).1.store.queueN =
      (if (((((pq.store.slots x).head?).isNone && !(pq.store.dummy == 0) : Bool) &&
          (firstQ pq.store.queues (priorityKeys pq.store.zpriorities none)).isSome : Bool) = true)
       then some (pq.store.queueN.getD 0 - 1) else pq.store.queueN)
    rcases hsl : (pq.store.slots x).head? with _ | d
    · show (dequeueRun pq (some x)).1.store.queueN = _
      rw [dequeueRun_counter]
      by_cases h0 : pq.store.dummy = 0 <;> simp [h0]
    · simp

theorem counter_delta_step (pq : PQ) (op : Op) (h : isEDA op = true) :
    (step pq op).store.queueN.getD 0 =
      pq.store.queueN.getD 0 + enqDelta pq op - consDelta pq op := by
  cases op with
  | enq d p =>
    show (enqueue pq d p).1.store.queueN.getD 0 = _
    unfold enqDelta consDelta
    rcases enqueue_cases pq d p with ⟨e, he⟩ | ⟨_, he⟩
    · have h1 : (enqueue pq d p).1 = pq := by rw [he]
      have h2 : (enqueue pq d p).2 = Res.err e := by rw [he]
      simp [h1, h2]
    · have h1 : (enqueue pq d p).1.store.queueN = some (pq.store.queueN.getD 0 + 1) := by
        rw [he]
      have h2 : (enqueue pq d p).2 = Res.ok (pq.store.queues p ++ [d]).length := by
        rw [he]
      simp [h1, h2]
  | deq r =>
    show (dequeue pq r).1.store.queueN.getD 0 = _
    unfold enqDelta consDelta
    rw [dequeue_counter_eq]
    by_cases hdp : dequeuePops pq r = true <;> simp [hdp]
  | ack r =>
    show (acknowledge pq r).1.store.queueN.getD 0 = _
    unfold enqDelta consDelta
    rw [(ack_store_frame pq r).2.1]
    simp
  | pk f => simp [isEDA] at h
  | hov f t => simp [isEDA] at h
  | clr => simp [isEDA] at h
  | pkr => simp [isEDA] at h

theorem run_ledger (pq : PQ) (ops : List Op) (h : ∀ op ∈ ops, isEDA op = true) :
    (run pq ops).store.queueN.getD 0 = pq.store.queueN.getD 0 + ledger pq ops := by
  induction ops generalizing pq with
  | nil =>
    show pq.store.queueN.getD 0 = pq.store.queueN.getD 0 + 0
    ring
  | cons op t ih =>
    show (run (step pq op) t).store.queueN.getD 0 = _
    rw [ih (step pq op) (fun o ho => h o (List.mem_cons_of_mem _ ho)),
      counter_delta_step pq op (h op (List.mem_cons_self _ _))]
    show _ = pq.store.queueN.getD 0 +
      ((enqDelta pq op - consDelta pq op) + ledger (step pq op) t)
    ring

/-- C5 counterexample: after `enqueue('a','normal')` followed by
`dequeue({reserve:'x'})` the actual count is 0, but the claim's formula —
enqueues minus (dequeues-without-reserve + acknowledges) — gives
`1 - (0 + 0) = 1`: a reserving dequeue already removes the item from its
queue and decrements the counter, before any acknowledge. -/
theorem counter_ledger_cex :
    count (run initDefault [Op.enq "a" "normal", Op.deq (some "x")]) none = some 0 ∧
    some ((1 : Int) - (0 + 0)) ≠ some (0 : Int) := by
  refine ⟨by decide, by decide⟩

/-- C5 (amended): over every sequence of enqueue/dequeue/acknowledge
operations from a fresh queue, the unfiltered `count` reads the stored
counter, and that counter (read as 0 while the key is absent) equals the
number of successful enqueues minus the number of dequeues that removed an
item from a queue — whether or not a reserve id was given; dequeues answered
from a reservation slot, dequeues that found nothing, and acknowledges
contribute nothing. -/
theorem counter_matches_consumption_ledger (ops : List Op)
    (h : ∀ op ∈ ops, isEDA op = true) :
    count (run initDefault ops) none = (run initDefault ops).store.queueN ∧
    (run initDefault ops).store.queueN.getD 0 = ledger initDefault ops := by
  refine ⟨rfl, ?_⟩
  rw [run_ledger initDefault ops h]
  show (none : Option Int).getD 0 + ledger initDefault ops = ledger initDefault ops
  simp

/-- C5 witness: the ledger equality on a concrete enqueue/dequeue/acknowledge
trace. -/
theorem counter_matches_consumption_ledger_witness :
    count (run initDefault [Op.enq "a" "normal", Op.deq (some "x"),
      Op.ack (some "x")]) none =
      (run initDefault [Op.enq "a" "normal", Op.deq (some "x"),
        Op.ack (some "x")]).store.queueN ∧
    (run initDefault [Op.enq "a" "normal", Op.deq (some "x"),
      Op.ack (some "x")]).store.queueN.getD 0 =
      ledger initDefault [Op.enq "a" "normal", Op.deq (some "x"), Op.ack (some "x")] :=
  counter_matches_consumption_ledger
    [Op.enq "a" "normal", Op.deq (some "x"), Op.ack (some "x")] (by decide)

/-- C4: every successful enqueue sets the counter to `n = old + 1` and
appends exactly `max(n - dn, 0)` tokens to the pool (never removing any); in
any well-formed state, after every completed operation the pool length is at
least the counter value; a dequeue consumes exactly one token exactly when
its slot-peek missed and the pool was non-empty; and no operation other than
enqueue (and the wholesale `clear`) ever grows the pool. -/
theorem enqueue_token_padding_invariant (pq : PQ) (h : WF pq) :
    (∀ d p n, (enqueue pq d p).2 = Res.ok n →
      (enqueue pq d p).1.store.queueN = some (pq.store.queueN.getD 0 + 1) ∧
      (enqueue pq d p).1.store.dummy = pq.store.dummy +
        ((pq.store.queueN.getD 0 + 1) - (pq.store.dummy : Int)).toNat ∧
      pq.store.dummy ≤ (enqueue pq d p).1.store.dummy) ∧
    (∀ op, (step pq op).store.queueN.getD 0 ≤ ((step pq op).store.dummy : Int)) ∧
    (∀ r, (step pq (Op.deq r)).store.dummy =
      (if takesToken pq r then pq.store.dummy - 1 else pq.store.dummy)) ∧
    (∀ op, (∀ d p, op ≠ Op.enq d p) → op ≠ Op.clr →
      (step pq op).store.dummy ≤ pq.store.dummy) := by
  refine ⟨?_, fun op => (WF_step pq h op).tok, fun r => dequeue_dummy_eq pq r, ?_⟩
  · intro d p n hok
    rcases enqueue_cases pq d p with ⟨e, he⟩ | ⟨_, he⟩
    · rw [he] at hok
      exact absurd hok (by simp)
    · have h1 : (enqueue pq d p).1.store.queueN = some (pq.store.queueN.getD 0 + 1) := by
        rw [he]
      have h2 : (enqueue pq d p).1.store.dummy = pq.store.dummy +
          ((pq.store.queueN.getD 0 + 1) - (pq.store.dummy : Int)).toNat := by
        rw [he]
      refine ⟨h1, h2, ?_⟩
      rw [h2]
      exact Nat.le_add_right _ _
  · intro op hne hnc
    cases op with
    | enq d p => exact absurd rfl (hne d p)
    | deq r =>
      show (dequeue pq r).1.store.dummy ≤ pq.store.dummy
      rw [dequeue_dummy_eq]
      by_cases ht : takesToken pq r = true <;> simp [ht]
    | pk f => exact le_refl _
    | hov f t =>
      show (handover pq f t).1.store.dummy ≤ pq.store.dummy
      rw [(handover_store_frame pq f t).2.2.1]
    | ack r =>
      show (acknowledge pq r).1.store.dummy ≤ pq.store.dummy
      rw [(ack_store_frame pq r).2.2.1]
    | clr => exact absurd rfl hnc
    | pkr =>
      show (peekReserves pq).1.store.dummy ≤ pq.store.dummy
      rw [(peekReserves_store_frame pq).2.2.1]

/-- C4 witness: the padding invariant instantiated at the fresh default
queue. -/
theorem enqueue_token_padding_invariant_witness :
    (∀ d p n, (enqueue initDefault d p).2 = Res.ok n →
      (enqueue initDefault d p).1.store.queueN =
        some (initDefault.store.queueN.getD 0 + 1) ∧
      (enqueue initDefault d p).1.store.dummy = initDefault.store.dummy +
        ((initDefault.store.queueN.getD 0 + 1) - (initDefault.store.dummy : Int)).toNat ∧
      initDefault.store.dummy ≤ (enqueue initDefault d p).1.store.dummy) ∧
    (∀ op, (step initDefault op).store.queueN.getD 0 ≤
      ((step initDefault op).store.dummy : Int)) ∧
    (∀ r, (step initDefault (Op.deq r)).store.dummy =
      (if takesToken initDefault r then initDefault.store.dummy - 1
       else initDefault.store.dummy)) ∧
    (∀ op, (∀ d p, op ≠ Op.enq d p) → op ≠ Op.clr →
      (step initDefault op).store.dummy ≤ initDefault.store.dummy) :=
  enqueue_token_padding_invariant initDefault WF_initDefault

end Rpq
